import Mathlib

/-!
Verification of the response-rendering pipeline of the Telegram analytics bot
(src/utils.rs, src/handlers.rs, src/bot.rs, src/api_client.rs).

Strings are modelled as `List Char` (Rust `String` is UTF-8 encoded text, i.e.
a sequence of Unicode scalar values); the UTF-8 byte representation that Rust
exposes through `as_bytes`, `len`, `find` and `std::str::from_utf8` is modelled
explicitly below, so byte-level truncation and byte offsets are faithful.
-/

set_option maxRecDepth 100000

namespace TgBot

/-- UTF-8 encoding of a single Unicode scalar value, given as its `Nat` code. -/
def utf8Bytes (n : Nat) : List Nat :=
  if n < 0x80 then [n]
  else if n < 0x800 then [0xC0 + n / 64, 0x80 + n % 64]
  else if n < 0x10000 then [0xE0 + n / 4096, 0x80 + (n / 64) % 64, 0x80 + n % 64]
  else [0xF0 + n / 262144, 0x80 + (n / 4096) % 64, 0x80 + (n / 64) % 64, 0x80 + n % 64]

/-- The UTF-8 bytes of a string, as Rust's `str::as_bytes` exposes them. -/
def strBytes : List Char → List Nat
  | [] => []
  | c :: cs => utf8Bytes c.toNat ++ strBytes cs

theorem utf8Bytes_one {n : Nat} (h : n < 0x80) : utf8Bytes n = [n] := by
  unfold utf8Bytes; rw [if_pos h]

theorem utf8Bytes_two {n : Nat} (h0 : 0x80 ≤ n) (h1 : n < 0x800) :
    utf8Bytes n = [0xC0 + n / 64, 0x80 + n % 64] := by
  unfold utf8Bytes; rw [if_neg (by omega), if_pos h1]

theorem utf8Bytes_three {n : Nat} (h0 : 0x800 ≤ n) (h1 : n < 0x10000) :
    utf8Bytes n = [0xE0 + n / 4096, 0x80 + (n / 64) % 64, 0x80 + n % 64] := by
  unfold utf8Bytes; rw [if_neg (by omega), if_neg (by omega), if_pos h1]

theorem utf8Bytes_four {n : Nat} (h0 : 0x10000 ≤ n) :
    utf8Bytes n = [0xF0 + n / 262144, 0x80 + (n / 4096) % 64, 0x80 + (n / 64) % 64, 0x80 + n % 64] := by
  unfold utf8Bytes; rw [if_neg (by omega), if_neg (by omega), if_neg (by omega)]

/-- Decode one UTF-8 scalar value: leading byte `b0`, remaining input `bs`.
Returns the scalar value and the bytes left over. The acceptance ranges are
exactly those of Rust's `std::str::from_utf8`: overlong forms, surrogates and
codepoints above U+10FFFF are rejected. -/
def decodeOne (b0 : Nat) (bs : List Nat) : Option (Nat × List Nat) :=
  if b0 < 0x80 then some (b0, bs)
  else if b0 < 0xC2 then none
  else if b0 < 0xE0 then
    match bs with
    | b1 :: bs1 =>
      if 0x80 ≤ b1 ∧ b1 < 0xC0 then some ((b0 - 0xC0) * 64 + (b1 - 0x80), bs1) else none
    | [] => none
  else if b0 < 0xF0 then
    match bs with
    | b1 :: b2 :: bs2 =>
      if (if b0 = 0xE0 then 0xA0 ≤ b1 ∧ b1 < 0xC0
          else if b0 = 0xED then 0x80 ≤ b1 ∧ b1 < 0xA0
          else 0x80 ≤ b1 ∧ b1 < 0xC0) ∧ (0x80 ≤ b2 ∧ b2 < 0xC0) then
        some ((b0 - 0xE0) * 4096 + (b1 - 0x80) * 64 + (b2 - 0x80), bs2)
      else none
    | _ => none
  else if b0 < 0xF5 then
    match bs with
    | b1 :: b2 :: b3 :: bs3 =>
      if (if b0 = 0xF0 then 0x90 ≤ b1 ∧ b1 < 0xC0
          else if b0 = 0xF4 then 0x80 ≤ b1 ∧ b1 < 0x90
          else 0x80 ≤ b1 ∧ b1 < 0xC0) ∧ (0x80 ≤ b2 ∧ b2 < 0xC0) ∧ (0x80 ≤ b3 ∧ b3 < 0xC0) then
        some ((b0 - 0xF0) * 262144 + (b1 - 0x80) * 4096 + (b2 - 0x80) * 64 + (b3 - 0x80), bs3)
      else none
    | _ => none
  else none

theorem decodeOne_rest_le {b0 : Nat} {bs : List Nat} {v : Nat} {rest : List Nat}
    (h : decodeOne b0 bs = some (v, rest)) : rest.length ≤ bs.length := by
  unfold decodeOne at h
  repeat' split at h
  all_goals cases h
  all_goals (try simp only [List.length_cons])
  all_goals omega

/-- Fuel-indexed UTF-8 decoding loop; `utf8Decode` instantiates the fuel with
the input length, which always suffices. -/
def utf8DecodeAux : Nat → List Nat → Option (List Char)
  | _, [] => some []
  | 0, _ :: _ => none
  | fuel + 1, b0 :: bs =>
    match decodeOne b0 bs with
    | some (v, rest) => (utf8DecodeAux fuel rest).map (fun cs => Char.ofNat v :: cs)
    | none => none

/-- Full UTF-8 decoding, with the semantics of `std::str::from_utf8`. -/
def utf8Decode (l : List Nat) : Option (List Char) := utf8DecodeAux l.length l

/-- Validity of a byte sequence as UTF-8, as decided by `std::str::from_utf8`. -/
def validB (bs : List Nat) : Bool := (utf8Decode bs).isSome

theorem utf8DecodeAux_fuel {f1 : Nat} : ∀ {f2 : Nat} {l : List Nat},
    l.length ≤ f1 → l.length ≤ f2 → utf8DecodeAux f1 l = utf8DecodeAux f2 l := by
  induction f1 with
  | zero =>
    intro f2 l h1 _
    cases l with
    | nil => cases f2 <;> rfl
    | cons b0 bs => simp at h1
  | succ f ih =>
    intro f2 l h1 h2
    cases l with
    | nil => cases f2 <;> rfl
    | cons b0 bs =>
      cases f2 with
      | zero => simp at h2
      | succ f2' =>
        show (match decodeOne b0 bs with
          | some (v, rest) => (utf8DecodeAux f rest).map (fun cs => Char.ofNat v :: cs)
          | none => none) =
          (match decodeOne b0 bs with
          | some (v, rest) => (utf8DecodeAux f2' rest).map (fun cs => Char.ofNat v :: cs)
          | none => none)
        cases hd : decodeOne b0 bs with
        | none => rfl
        | some p =>
          obtain ⟨v, rest⟩ := p
          have hle := decodeOne_rest_le hd
          simp only [List.length_cons] at h1 h2
          show (utf8DecodeAux f rest).map (fun cs => Char.ofNat v :: cs) =
            (utf8DecodeAux f2' rest).map (fun cs => Char.ofNat v :: cs)
          rw [@ih f2' rest (by omega) (by omega)]

/-- The one cons-step equation for `utf8Decode`. -/
theorem utf8Decode_cons (b0 : Nat) (bs : List Nat) :
    utf8Decode (b0 :: bs) =
      match decodeOne b0 bs with
      | some (v, rest) => (utf8Decode rest).map (fun cs => Char.ofNat v :: cs)
      | none => none := by
  show utf8DecodeAux (b0 :: bs).length (b0 :: bs) = _
  rw [List.length_cons]
  show (match decodeOne b0 bs with
    | some (v, rest) => (utf8DecodeAux bs.length rest).map (fun cs => Char.ofNat v :: cs)
    | none => none) = _
  cases hd : decodeOne b0 bs with
  | none => rfl
  | some p =>
    obtain ⟨v, rest⟩ := p
    have hle := decodeOne_rest_le hd
    show (utf8DecodeAux bs.length rest).map _ = (utf8Decode rest).map _
    rw [utf8DecodeAux_fuel hle (Nat.le_refl _)]
    rfl

/-- The valid-scalar-value range of a `Char`, in `Nat` form. -/
theorem char_toNat_valid (c : Char) :
    c.toNat < 0xD800 ∨ (0xDFFF < c.toNat ∧ c.toNat < 0x110000) := c.valid

/-- `decodeOne` recovers a whole encoded character and leaves the remainder. -/
theorem decodeOne_utf8Bytes (c : Char) (r : List Nat) :
    ∃ b0 bs, utf8Bytes c.toNat ++ r = b0 :: bs ∧ decodeOne b0 bs = some (c.toNat, r) := by
  have hv := char_toNat_valid c
  set n := c.toNat with hn
  by_cases ha : n < 0x80
  · refine ⟨n, r, ?_, ?_⟩
    · unfold utf8Bytes; rw [if_pos ha]; rfl
    · unfold decodeOne; rw [if_pos ha]
  · by_cases hb : n < 0x800
    · refine ⟨0xC0 + n / 64, (0x80 + n % 64) :: r, ?_, ?_⟩
      · unfold utf8Bytes; rw [if_neg ha, if_pos hb]; rfl
      · unfold decodeOne
        rw [if_neg (by omega), if_neg (by omega), if_pos (by omega)]
        show (if 0x80 ≤ 0x80 + n % 64 ∧ 0x80 + n % 64 < 0xC0 then
          some ((0xC0 + n / 64 - 0xC0) * 64 + (0x80 + n % 64 - 0x80), r) else none) = some (n, r)
        rw [if_pos (by omega)]
        congr 2
        omega
    · by_cases hc : n < 0x10000
      · refine ⟨0xE0 + n / 4096, (0x80 + (n / 64) % 64) :: (0x80 + n % 64) :: r, ?_, ?_⟩
        · unfold utf8Bytes; rw [if_neg ha, if_neg hb, if_pos hc]; rfl
        · unfold decodeOne
          rw [if_neg (by omega), if_neg (by omega), if_neg (by omega), if_pos (by omega)]
          show (if ((if 0xE0 + n / 4096 = 0xE0 then
                0xA0 ≤ 0x80 + (n / 64) % 64 ∧ 0x80 + (n / 64) % 64 < 0xC0
              else if 0xE0 + n / 4096 = 0xED then
                0x80 ≤ 0x80 + (n / 64) % 64 ∧ 0x80 + (n / 64) % 64 < 0xA0
              else 0x80 ≤ 0x80 + (n / 64) % 64 ∧ 0x80 + (n / 64) % 64 < 0xC0) ∧
              (0x80 ≤ 0x80 + n % 64 ∧ 0x80 + n % 64 < 0xC0)) then
            some ((0xE0 + n / 4096 - 0xE0) * 4096 + (0x80 + (n / 64) % 64 - 0x80) * 64 +
              (0x80 + n % 64 - 0x80), r)
          else none) = some (n, r)
          rw [if_pos ?hcnd]
          case hcnd =>
            refine ⟨?_, by omega⟩
            split
            · omega
            · split
              · omega
              · omega
          congr 2
          omega
      · refine ⟨0xF0 + n / 262144,
          (0x80 + (n / 4096) % 64) :: (0x80 + (n / 64) % 64) :: (0x80 + n % 64) :: r, ?_, ?_⟩
        · unfold utf8Bytes; rw [if_neg ha, if_neg hb, if_neg hc]; rfl
        · unfold decodeOne
          rw [if_neg (by omega), if_neg (by omega), if_neg (by omega), if_neg (by omega),
            if_pos (by omega)]
          show (if ((if 0xF0 + n / 262144 = 0xF0 then
                0x90 ≤ 0x80 + (n / 4096) % 64 ∧ 0x80 + (n / 4096) % 64 < 0xC0
              else if 0xF0 + n / 262144 = 0xF4 then
                0x80 ≤ 0x80 + (n / 4096) % 64 ∧ 0x80 + (n / 4096) % 64 < 0x90
              else 0x80 ≤ 0x80 + (n / 4096) % 64 ∧ 0x80 + (n / 4096) % 64 < 0xC0) ∧
              (0x80 ≤ 0x80 + (n / 64) % 64 ∧ 0x80 + (n / 64) % 64 < 0xC0) ∧
              (0x80 ≤ 0x80 + n % 64 ∧ 0x80 + n % 64 < 0xC0)) then
            some ((0xF0 + n / 262144 - 0xF0) * 262144 + (0x80 + (n / 4096) % 64 - 0x80) * 4096 +
              (0x80 + (n / 64) % 64 - 0x80) * 64 + (0x80 + n % 64 - 0x80), r)
          else none) = some (n, r)
          rw [if_pos ?hcnd]
          case hcnd =>
            refine ⟨?_, by omega, by omega⟩
            split
            · omega
            · split
              · omega
              · omega
          congr 2
          omega

/-- Decoding picks up a whole encoded character and continues behind it. -/
theorem utf8Decode_utf8Bytes_append (c : Char) (r : List Nat) :
    utf8Decode (utf8Bytes c.toNat ++ r) = (utf8Decode r).map (fun cs => c :: cs) := by
  obtain ⟨b0, bs, heq, hd⟩ := decodeOne_utf8Bytes c r
  rw [heq, utf8Decode_cons, hd]
  show (utf8Decode r).map (fun cs => Char.ofNat c.toNat :: cs) = _
  rw [Char.ofNat_toNat]

/-- Every encoded string decodes back to itself: `from_utf8` accepts the
byte form of any Rust string. -/
theorem utf8Decode_strBytes (cs : List Char) : utf8Decode (strBytes cs) = some cs := by
  induction cs with
  | nil => rfl
  | cons c cs ih =>
    show utf8Decode (utf8Bytes c.toNat ++ strBytes cs) = _
    rw [utf8Decode_utf8Bytes_append, ih]
    rfl

theorem validB_strBytes (cs : List Char) : validB (strBytes cs) = true := by
  unfold validB; rw [utf8Decode_strBytes]; rfl

theorem strBytes_append (a b : List Char) :
    strBytes (a ++ b) = strBytes a ++ strBytes b := by
  induction a with
  | nil => rfl
  | cons c cs ih =>
    show utf8Bytes c.toNat ++ strBytes (cs ++ b) = (utf8Bytes c.toNat ++ strBytes cs) ++ strBytes b
    rw [ih, List.append_assoc]

theorem decodeOne_nil_none {b0 : Nat} (h : 0xC2 ≤ b0) : decodeOne b0 [] = none := by
  unfold decodeOne
  rw [if_neg (by omega), if_neg (by omega)]
  repeat' split
  all_goals first
    | rfl
    | simp_all

theorem decodeOne_single_none {b0 b1 : Nat} (h : 0xE0 ≤ b0) : decodeOne b0 [b1] = none := by
  unfold decodeOne
  rw [if_neg (by omega), if_neg (by omega), if_neg (by omega)]
  repeat' split
  all_goals first
    | rfl
    | simp_all

theorem decodeOne_pair_none {b0 b1 b2 : Nat} (h : 0xF0 ≤ b0) :
    decodeOne b0 [b1, b2] = none := by
  unfold decodeOne
  rw [if_neg (by omega), if_neg (by omega), if_neg (by omega), if_neg (by omega)]
  repeat' split
  all_goals first
    | rfl
    | simp_all

theorem utf8Decode_cons_none {b0 : Nat} {bs : List Nat} (h : decodeOne b0 bs = none) :
    utf8Decode (b0 :: bs) = none := by
  rw [utf8Decode_cons, h]

/-- Cutting inside a multi-byte character makes the bytes invalid: a proper
nonempty byte prefix of one encoded character is rejected by the decoder. -/
theorem utf8Decode_take_utf8Bytes (c : Char) {n : Nat} (h0 : 0 < n)
    (h1 : n < (utf8Bytes c.toNat).length) :
    utf8Decode ((utf8Bytes c.toNat).take n) = none := by
  have hv := char_toNat_valid c
  set m := c.toNat with hm
  by_cases ha : m < 0x80
  · rw [utf8Bytes_one ha] at h1
    simp at h1
    omega
  · by_cases hb : m < 0x800
    · rw [utf8Bytes_two (by omega) hb] at h1 ⊢
      simp only [List.length_cons, List.length_nil] at h1
      have hn : n = 1 := by omega
      subst hn
      show utf8Decode [0xC0 + m / 64] = none
      exact utf8Decode_cons_none (decodeOne_nil_none (by omega))
    · by_cases hc : m < 0x10000
      · rw [utf8Bytes_three (by omega) hc] at h1 ⊢
        simp only [List.length_cons, List.length_nil] at h1
        have hn : n = 1 ∨ n = 2 := by omega
        rcases hn with hn | hn <;> subst hn
        · show utf8Decode [0xE0 + m / 4096] = none
          exact utf8Decode_cons_none (decodeOne_nil_none (by omega))
        · show utf8Decode [0xE0 + m / 4096, 0x80 + (m / 64) % 64] = none
          exact utf8Decode_cons_none (decodeOne_single_none (by omega))
      · rw [utf8Bytes_four (by omega)] at h1 ⊢
        simp only [List.length_cons, List.length_nil] at h1
        have hn : n = 1 ∨ n = 2 ∨ n = 3 := by omega
        rcases hn with hn | hn | hn <;> subst hn
        · show utf8Decode [0xF0 + m / 262144] = none
          exact utf8Decode_cons_none (decodeOne_nil_none (by omega))
        · show utf8Decode [0xF0 + m / 262144, 0x80 + (m / 4096) % 64] = none
          exact utf8Decode_cons_none (decodeOne_single_none (by omega))
        · show utf8Decode [0xF0 + m / 262144, 0x80 + (m / 4096) % 64, 0x80 + (m / 64) % 64] = none
          exact utf8Decode_cons_none (decodeOne_pair_none (by omega))

/-- Whenever a byte prefix of an encoded string decodes at all, the decoded
text is a character prefix of the original string, and its bytes are exactly
the bytes that were kept. -/
theorem utf8Decode_take_strBytes : ∀ (q : List Char) (n : Nat) {xs : List Char},
    utf8Decode ((strBytes q).take n) = some xs →
    (∃ m, xs = q.take m) ∧ strBytes xs = (strBytes q).take n := by
  intro q
  induction q with
  | nil =>
    intro n xs h
    have hb : strBytes ([] : List Char) = [] := rfl
    rw [hb, List.take_nil] at h ⊢
    have h' : some ([] : List Char) = some xs := h
    have hx : ([] : List Char) = xs := Option.some_inj.mp h'
    subst hx
    exact ⟨⟨0, rfl⟩, rfl⟩
  | cons c q' ih =>
    intro n xs h
    have hsb : strBytes (c :: q') = utf8Bytes c.toNat ++ strBytes q' := rfl
    rcases Nat.eq_zero_or_pos n with hn | hn
    · subst hn
      simp only [List.take_zero] at h ⊢
      have hx : xs = [] := by
        have := Option.some_inj.mp h
        exact this.symm
      subst hx
      exact ⟨⟨0, rfl⟩, rfl⟩
    · by_cases hlen : n < (utf8Bytes c.toNat).length
      · exfalso
        rw [hsb, List.take_append_eq_append_take,
          Nat.sub_eq_zero_of_le (Nat.le_of_lt hlen), List.take_zero, List.append_nil] at h
        rw [utf8Decode_take_utf8Bytes c hn hlen] at h
        cases h
      · push_neg at hlen
        rw [hsb, List.take_append_eq_append_take, List.take_of_length_le hlen,
          utf8Decode_utf8Bytes_append] at h
        cases hd : utf8Decode ((strBytes q').take (n - (utf8Bytes c.toNat).length)) with
        | none => rw [hd] at h; cases h
        | some xs' =>
          rw [hd] at h
          have hx : xs = c :: xs' := (Option.some_inj.mp h).symm
          subst hx
          obtain ⟨⟨m', hm'⟩, hbytes⟩ := ih _ hd
          constructor
          · exact ⟨m' + 1, by rw [List.take_succ_cons, hm']⟩
          · show utf8Bytes c.toNat ++ strBytes xs' = _
            rw [hbytes, hsb, List.take_append_eq_append_take,
              List.take_of_length_le hlen]

/-! ## Action Token Codec (`create_suggestions_keyboard` in src/utils.rs,
`handle_callback` in src/bot.rs) -/

/-- The `while len > 0 && !std::str::from_utf8(&bytes[..len]).is_ok()
{ len -= 1 }` loop of `create_suggestions_keyboard`: final value of `len`
when started from the given bound. -/
def shrinkLen (bs : List Nat) : Nat → Nat
  | 0 => 0
  | m + 1 => if validB (bs.take (m + 1)) then m + 1 else shrinkLen bs m

theorem shrinkLen_le (bs : List Nat) (m : Nat) : shrinkLen bs m ≤ m := by
  induction m with
  | zero => exact Nat.le_refl _
  | succ k ih =>
    show (if validB (bs.take (k + 1)) then k + 1 else shrinkLen bs k) ≤ k + 1
    split
    · exact Nat.le_refl _
    · exact Nat.le_succ_of_le ih

theorem validB_take_shrinkLen (bs : List Nat) (m : Nat) :
    validB (bs.take (shrinkLen bs m)) = true := by
  induction m with
  | zero => rfl
  | succ k ih =>
    show validB (bs.take (if validB (bs.take (k + 1)) then k + 1 else shrinkLen bs k)) = true
    split
    · next h => exact h
    · exact ih

/-- The byte-safe truncation of a suggested question in
`create_suggestions_keyboard` (src/utils.rs lines 369-380): if the question
exceeds the 58-byte budget (64 minus the 6-byte `"query:"` prefix), shrink a
byte length until `from_utf8` accepts the prefix slice (`unwrap_or("")` on
the final slice). -/
def truncated_question (question : List Char) : List Char :=
  let bs := strBytes question
  if 58 < bs.length then (utf8Decode (bs.take (shrinkLen bs 58))).getD [] else question

/-- The callback data built for one suggestion button (src/utils.rs lines
363-394): `"query:"` plus the truncated question, re-shrunk defensively if
the result still exceeds 64 bytes. -/
def callback_data (question : List Char) : List Char :=
  let cd := "query:".data ++ truncated_question question
  let bs := strBytes cd
  if 64 < bs.length then (utf8Decode (bs.take (shrinkLen bs 64))).getD [] else cd

/-- The button display text (src/utils.rs lines 356-361): 37 codepoints plus
`"..."` when the question is over 40 codepoints. -/
def button_text (question : List Char) : List Char :=
  if 40 < question.length then question.take 37 ++ "...".data else question

/-- The inline keyboard of `create_suggestions_keyboard`: one
`(button_text, callback_data)` row per question, capped at 6 rows. -/
def create_suggestions_keyboard (questions : List (List Char)) :
    List (List Char × List Char) :=
  (questions.take 6).map (fun q => (button_text q, callback_data q))

theorem truncated_question_spec (q : List Char) :
    (∃ m, truncated_question q = q.take m) ∧
    (∃ k, strBytes (truncated_question q) = (strBytes q).take k) ∧
    (strBytes (truncated_question q)).length ≤ 58 := by
  unfold truncated_question
  by_cases h : 58 < (strBytes q).length
  · rw [if_pos h]
    have hval := validB_take_shrinkLen (strBytes q) 58
    unfold validB at hval
    cases hd : utf8Decode ((strBytes q).take (shrinkLen (strBytes q) 58)) with
    | none => rw [hd] at hval; cases hval
    | some xs =>
      obtain ⟨⟨m, hm⟩, hbytes⟩ := utf8Decode_take_strBytes q _ hd
      simp only [Option.getD_some]
      refine ⟨⟨m, hm⟩, ⟨shrinkLen (strBytes q) 58, hbytes⟩, ?_⟩
      rw [hbytes, List.length_take]
      exact le_trans (Nat.min_le_left _ _) (shrinkLen_le _ _)
  · rw [if_neg h]
    push_neg at h
    exact ⟨⟨q.length, (List.take_length q).symm⟩,
      ⟨(strBytes q).length, (List.take_length _).symm⟩, h⟩

theorem strBytes_query_len : (strBytes "query:".data).length = 6 := by decide

theorem callback_data_eq (q : List Char) :
    callback_data q = "query:".data ++ truncated_question q := by
  unfold callback_data
  have hlen : (strBytes ("query:".data ++ truncated_question q)).length ≤ 64 := by
    rw [strBytes_append, List.length_append, strBytes_query_len]
    have := (truncated_question_spec q).2.2
    omega
  rw [if_neg (by omega)]

/-- C1: for every suggested question string `q`, the action token built for
its button (the callback data of `create_suggestions_keyboard`, 64-byte
budget, `"query:"` prefix) is at most 64 bytes long, begins with `"query:"`,
is valid UTF-8 with no codepoint split, and the part after the prefix is a
byte prefix of `q`. -/
theorem C1_callback_token_spec (q : List Char) :
    (strBytes (callback_data q)).length ≤ 64 ∧
    (∃ rest, callback_data q = "query:".data ++ rest ∧
      (∃ m, rest = q.take m) ∧ (∃ k, strBytes rest = (strBytes q).take k)) ∧
    validB (strBytes (callback_data q)) = true := by
  obtain ⟨hm, hk, hlen⟩ := truncated_question_spec q
  refine ⟨?_, ⟨truncated_question q, callback_data_eq q, hm, hk⟩, validB_strBytes _⟩
  rw [callback_data_eq q, strBytes_append, List.length_append, strBytes_query_len]
  omega

/-- Character-level model of Rust `str::to_lowercase`, restricted to ASCII
letters and the basic Cyrillic letters actually present in this bot's data
(`А`-`Я` and `Ё`); all other characters are left unchanged. -/
def lowerChar (c : Char) : Char :=
  if 0x41 ≤ c.toNat ∧ c.toNat ≤ 0x5A then Char.ofNat (c.toNat + 32)
  else if 0x410 ≤ c.toNat ∧ c.toNat ≤ 0x42F then Char.ofNat (c.toNat + 32)
  else if c.toNat = 0x401 then Char.ofNat 0x451
  else c

def lowerStr (s : List Char) : List Char := s.map lowerChar

/-- Rust `str::starts_with` on the element-list model. -/
def listStarts {α : Type} [BEq α] : List α → List α → Bool
  | _, [] => true
  | [], _ :: _ => false
  | a :: s, b :: p => a == b && listStarts s p

theorem listStarts_nil {α : Type} [BEq α] (s : List α) : listStarts s [] = true := by
  cases s <;> rfl

theorem listStarts_append_self {s p : List Char} : listStarts (p ++ s) p = true := by
  induction p with
  | nil => rw [List.nil_append]; exact listStarts_nil s
  | cons a t ih =>
    show (a == a && listStarts (t ++ s) t) = true
    rw [ih, beq_self_eq_true]
    rfl

theorem drop_six_query {rest : List Char} : ("query:".data ++ rest).drop 6 = rest := by
  have h : ("query:".data).length = 6 := rfl
  rw [← h, List.drop_left]

/-- The callback-token decoder of `handle_callback` (src/bot.rs lines
129-145): a `"query:"` token yields the suffix, prefixed with the `"sql: "`
routing marker unless it already starts with `"sql:"` case-insensitively;
`"q:"` hash tokens and anything else are unresolvable (handled by returning
early, modelled as `none`). -/
def decodeToken (data : List Char) : Option (List Char) :=
  if listStarts data "query:".data then
    some (if listStarts (lowerStr (data.drop 6)) "sql:".data then data.drop 6
          else "sql: ".data ++ data.drop 6)
  else if listStarts data "q:".data then none
  else none

/-- C2 (amended): decoding the encoded token yields either a byte-bounded
prefix of `q` itself (when the fragment already carries the `"sql:"` marker)
or the 5-byte marker `"sql: "` followed by such a prefix; the fragment never
exceeds the byte length of `q` (nor 58 bytes) and is valid text, but the
whole decoded string can exceed the byte length of `q` by the injected
marker. -/
theorem C2_decode_encode (q : List Char) :
    ∃ frag m k, frag = q.take m ∧ strBytes frag = (strBytes q).take k ∧
      (strBytes frag).length ≤ 58 ∧
      (strBytes frag).length ≤ (strBytes q).length ∧
      (decodeToken (callback_data q) = some frag ∨
        decodeToken (callback_data q) = some ("sql: ".data ++ frag)) := by
  obtain ⟨⟨m, hm⟩, ⟨k, hk⟩, hlen⟩ := truncated_question_spec q
  refine ⟨truncated_question q, m, k, hm, hk, hlen, ?_, ?_⟩
  · rw [hk, List.length_take]
    exact Nat.min_le_right _ _
  · rw [callback_data_eq q]
    unfold decodeToken
    rw [if_pos listStarts_append_self, drop_six_query]
    by_cases h : listStarts (lowerStr (truncated_question q)) "sql:".data = true
    · rw [if_pos h]
      exact Or.inl rfl
    · rw [if_neg h]
      exact Or.inr rfl

/-- C2 counterexample: the claim as stated requires `decode(encode(q))` to
never exceed the byte length of `q`; for `q = "hi"` the decoder injects the
`"sql: "` marker and returns a 7-byte string, exceeding the 2-byte input. -/
theorem C2_counterexample :
    decodeToken (callback_data "hi".data) = some "sql: hi".data ∧
    ¬ (strBytes "sql: hi".data).length ≤ (strBytes "hi".data).length := by
  constructor
  · decide
  · decide

/-! ## Keyword Hint Extractor (`detect_output_format` in src/handlers.rs) -/

/-- The `OutputType` enum of src/api_client.rs. -/
inductive OutputTypeM where
  | table
  | chart
  | json
  | auto
deriving DecidableEq

/-- Rust `str::find` on the byte-list model: first index at which the
pattern occurs. -/
def listFind {α : Type} [BEq α] (pat : List α) : List α → Option Nat
  | [] => if listStarts ([] : List α) pat then some 0 else none
  | a :: t => if listStarts (a :: t) pat then some 0 else (listFind pat t).map (· + 1)

/-- The `while let Some(pos) = text_lower[search_pos..].find(&keyword_lower)`
loop of `detect_output_format` (src/handlers.rs lines 465-484), collecting
`(byte_start, byte_start + keyword.len())` pairs and advancing past each
match. The fuel only bounds iteration; it never runs out because every
keyword is nonempty, so the search position strictly advances. -/
def collectOccGo (hay pat : List Nat) (endLen : Nat) : Nat → Nat → List (Nat × Nat)
  | 0, _ => []
  | fuel + 1, searchPos =>
    match listFind pat (hay.drop searchPos) with
    | none => []
    | some pos => (searchPos + pos, searchPos + pos + endLen) ::
        collectOccGo hay pat endLen fuel (searchPos + pos + endLen)

def collectOcc (hay pat : List Nat) (endLen : Nat) : List (Nat × Nat) :=
  collectOccGo hay pat endLen (hay.length + 1) 0

/-- Stable insertion modelling `to_remove.sort_by(|a, b| b.0.cmp(&a.0))`
(descending by start offset; Rust `sort_by` is a stable sort, and a
left-to-right stable insertion sort computes the same permutation). -/
def insertDescByFst (p : Nat × Nat) : List (Nat × Nat) → List (Nat × Nat)
  | [] => [p]
  | q :: rest => if q.1 < p.1 then p :: q :: rest else q :: insertDescByFst p rest

def sortDescByFst (l : List (Nat × Nat)) : List (Nat × Nat) :=
  l.foldl (fun acc p => insertDescByFst p acc) []

/-- One iteration of the removal loop (src/handlers.rs lines 490-501): the
byte range `(start, end)` is checked against the current byte length, then
converted with `clean_text.chars().take(offset).count()` — which merely
clamps the byte offset to the char count, it does not convert byte offsets
to char offsets — and the clamped char range is drained. -/
def removeStep (cs : List Char) (p : Nat × Nat) : List Char :=
  if p.2 ≤ (strBytes cs).length then
    let startChar := min p.1 cs.length
    let endChar := min p.2 cs.length
    if endChar ≤ cs.length then cs.take startChar ++ cs.drop endChar else cs
  else cs

/-- Rust `char::is_whitespace`, restricted to the ASCII whitespace present in
this bot's inputs. -/
def isWsChar (c : Char) : Bool := c == ' ' || c == '\t' || c == '\n' || c == '\r'

/-- Rust `str::split_whitespace` (maximal nonempty runs between whitespace). -/
def splitWs : List Char → List (List Char)
  | [] => []
  | c :: cs =>
    if isWsChar c then splitWs cs
    else
      match cs, splitWs cs with
      | [], _ => [[c]]
      | d :: _, r :: rs => if isWsChar d then [c] :: r :: rs else (c :: r) :: rs
      | _ :: _, [] => [[c]]

/-- Rust `[&str]::join`. -/
def joinSep (sep : List Char) : List (List Char) → List Char
  | [] => []
  | [w] => w
  | w :: ws => w ++ sep ++ joinSep sep ws

/-- Trim a predicate from both ends (`str::trim` / `str::trim_matches`). -/
def trimBothWhile (p : Char → Bool) (s : List Char) : List Char :=
  ((s.dropWhile p).reverse.dropWhile p).reverse

def trimWs (s : List Char) : List Char := trimBothWhile isWsChar s

def trimCommas (s : List Char) : List Char := trimBothWhile (fun c => c == ',') s

/-- The table keyword list of `detect_output_format` (src/handlers.rs lines
426-430). -/
def table_keywords : List (List Char) :=
  ["таблица".data, "table".data, "таблицу".data, "таблицей".data,
   "в таблице".data, "как таблица".data, "покажи таблицу".data,
   "табличный".data, "табличный формат".data]

/-- The chart keyword list of `detect_output_format` (src/handlers.rs lines
433-440); `"график"` really occurs twice in the source. -/
def chart_keywords : List (List Char) :=
  ["диаграмма".data, "chart".data, "график".data, "графиком".data,
   "диаграмму".data, "диаграммой".data, "в диаграмме".data,
   "как диаграмма".data, "покажи диаграмму".data, "визуализация".data,
   "визуализацию".data, "визуализацией".data, "визуализировать".data,
   "графически".data, "графический".data, "plot".data, "график".data,
   "нарисуй".data, "построй".data, "visualization".data]

/-- `detect_output_format` (src/handlers.rs lines 422-515). Classification
and the keyword search run over the byte representation of the lowercased
text, exactly as Rust's `str::contains` / `str::find` do; the collected
offsets are byte offsets, and the removal loop feeds them through the
clamping conversion of `removeStep`. -/
def detect_output_format (text : List Char) : List Char × OutputTypeM :=
  let text_lower := lowerStr text
  let hay := strBytes text_lower
  let has_table := table_keywords.any (fun k => (listFind (strBytes k) hay).isSome)
  let has_chart := chart_keywords.any (fun k => (listFind (strBytes k) hay).isSome)
  let output_type :=
    if has_chart then OutputTypeM.chart
    else if has_table then OutputTypeM.table
    else if (listFind (strBytes "json".data) hay).isSome then OutputTypeM.json
    else OutputTypeM.auto
  let to_remove :=
    (table_keywords.map (fun k => collectOcc hay (strBytes (lowerStr k)) (strBytes k).length)).flatten
    ++ (chart_keywords.map (fun k => collectOcc hay (strBytes (lowerStr k)) (strBytes k).length)).flatten
  let clean_text := (sortDescByFst to_remove).foldl removeStep text
  let clean_text :=
    trimWs (trimCommas (trimWs (joinSep " ".data
      ((splitWs clean_text).filter (fun w => !w.isEmpty)))))
  (clean_text, output_type)

/-- C3: the code evaluated at the spec's own scenario input. The spec says
`extract "покажи топ городов таблица"` yields clean text
`"покажи топ городов"`; the code classifies the kind correctly but removes
nothing, because the byte offsets (35, 49) of `"таблица"` are clamped to the
26-char count by `chars().take(offset).count()` instead of being converted
to the char offsets (19, 26), so the drained range is empty. -/
theorem C3_keyword_removal_failure :
    detect_output_format "покажи топ городов таблица".data =
      ("покажи топ городов таблица".data, OutputTypeM.table) := by decide

/-! ## Message Segmenter (the chunking loop in `handle_message`,
src/handlers.rs lines 188-224) -/

/-- Split at `'\n'`, keeping every (possibly empty) segment. -/
def splitNl : List Char → List (List Char)
  | [] => [[]]
  | c :: cs =>
    if c = '\n' then [] :: splitNl cs
    else
      match splitNl cs with
      | s :: ss => (c :: s) :: ss
      | [] => [[c]]

/-- Drop one trailing `'\r'` (the CRLF handling of Rust `str::lines`). -/
def stripCR (l : List Char) : List Char :=
  if l.getLast? = some '\r' then l.dropLast else l

/-- Rust `str::lines`: newline-separated segments, no trailing empty segment
for a trailing newline, one trailing `'\r'` stripped per line. -/
def rustLines (s : List Char) : List (List Char) :=
  if s = [] then []
  else (if s.getLast? = some '\n' then (splitNl s).dropLast else splitNl s).map stripCR

/-- Join with `'\n'` between elements (how the accumulator of the chunking
loop concatenates the lines it has collected). -/
def joinNl : List (List Char) → List Char
  | [] => []
  | [l] => l
  | l :: ls => l ++ '\n' :: joinNl ls

theorem joinNl_cons₂ (x y : List Char) (t : List (List Char)) :
    joinNl (x :: y :: t) = x ++ '\n' :: joinNl (y :: t) := rfl

/-- The greedy line-accumulation loop of `handle_message` (src/handlers.rs
lines 190-207): before adding a line, if `current.len() + line.len() + 1 >
soft` the nonempty accumulator is closed; a nonempty accumulator receives a
`'\n'` before the next line; the final nonempty accumulator is flushed.
Lengths are byte lengths, as Rust `String::len` measures. -/
def segLoop (soft : Nat) : List (List Char) → List Char → List (List Char)
  | [], cur => if cur = [] then [] else [cur]
  | l :: ls, cur =>
    if soft < (strBytes cur).length + (strBytes l).length + 1 then
      (if cur = [] then [] else [cur]) ++ segLoop soft ls l
    else
      segLoop soft ls (if cur = [] then l else cur ++ '\n' :: l)

/-- The chunking of an over-length report, soft limit 4000. -/
def segment (s : List Char) : List (List Char) := segLoop 4000 (rustLines s) []

/-- The sending decision of `handle_message` (src/handlers.rs line 188): a
report over 4096 bytes is segmented, anything else goes out as one message. -/
def sendPlan (s : List Char) : List (List Char) :=
  if 4096 < (strBytes s).length then segment s else [s]

theorem strBytes_newline_cons (l : List Char) :
    (strBytes ('\n' :: l)).length = 1 + (strBytes l).length := by
  show (utf8Bytes '\n'.toNat ++ strBytes l).length = 1 + (strBytes l).length
  rw [List.length_append]
  norm_num
  decide

/-- Every chunk the loop emits is within the soft limit, unless it is the
running accumulator or one whole input line. -/
theorem segLoop_mem (soft : Nat) : ∀ (ls : List (List Char)) (cur ch : List Char),
    ch ∈ segLoop soft ls cur →
    (strBytes ch).length ≤ soft ∨ ch = cur ∨ ch ∈ ls := by
  intro ls
  induction ls with
  | nil =>
    intro cur ch hch
    replace hch : ch ∈ (if cur = [] then ([] : List (List Char)) else [cur]) := hch
    by_cases h : cur = []
    · rw [if_pos h] at hch; cases hch
    · rw [if_neg h] at hch
      exact Or.inr (Or.inl (List.mem_singleton.mp hch))
  | cons l ls ih =>
    intro cur ch hch
    replace hch : ch ∈ (if soft < (strBytes cur).length + (strBytes l).length + 1 then
        (if cur = [] then [] else [cur]) ++ segLoop soft ls l
      else segLoop soft ls (if cur = [] then l else cur ++ '\n' :: l)) := hch
    by_cases hc : soft < (strBytes cur).length + (strBytes l).length + 1
    · rw [if_pos hc] at hch
      rcases List.mem_append.mp hch with h1 | h2
      · by_cases h : cur = []
        · rw [if_pos h] at h1; cases h1
        · rw [if_neg h] at h1
          exact Or.inr (Or.inl (List.mem_singleton.mp h1))
      · rcases ih l ch h2 with h | h | h
        · exact Or.inl h
        · subst h; exact Or.inr (Or.inr (List.mem_cons_self _ _))
        · exact Or.inr (Or.inr (List.mem_cons_of_mem _ h))
    · rw [if_neg hc] at hch
      rcases ih _ ch hch with h | h | h
      · exact Or.inl h
      · subst h
        push_neg at hc
        refine Or.inl ?_
        by_cases h0 : cur = []
        · rw [if_pos h0]
          have hz : (strBytes cur).length = 0 := by rw [h0]; rfl
          omega
        · rw [if_neg h0]
          rw [strBytes_append, List.length_append]
          have := strBytes_newline_cons l
          omega
      · exact Or.inr (Or.inr (List.mem_cons_of_mem _ h))

/-- The chunking loop at the granularity of whole lines: each chunk is the
group of the input lines it was accumulated from (empty lines arriving at an
empty accumulator are dropped). -/
def segGroups (soft : Nat) : List (List Char) → List (List Char) → List (List (List Char))
  | [], cur => if cur = [] then [] else [cur]
  | l :: ls, cur =>
    if soft < (strBytes (joinNl cur)).length + (strBytes l).length + 1 then
      (if cur = [] then [] else [cur]) ++
        segGroups soft ls (if l = [] then [] else [l])
    else
      segGroups soft ls (if cur = [] then (if l = [] then [] else [l]) else cur ++ [l])

theorem joinNl_concat (l : List Char) : ∀ (cur : List (List Char)), cur ≠ [] →
    joinNl (cur ++ [l]) = joinNl cur ++ '\n' :: l := by
  intro cur
  induction cur with
  | nil => intro h; exact absurd rfl h
  | cons x t ih =>
    intro _
    cases t with
    | nil => rfl
    | cons y t' =>
      have hne : y :: t' ≠ [] := by simp
      show joinNl (x :: ((y :: t') ++ [l])) = joinNl (x :: y :: t') ++ '\n' :: l
      rw [show (y :: t') ++ [l] = y :: (t' ++ [l]) by rfl]
      rw [joinNl_cons₂, joinNl_cons₂]
      rw [show y :: (t' ++ [l]) = (y :: t') ++ [l] by rfl]
      rw [ih hne, List.append_assoc]
      rfl

theorem joinNl_singleton_if (l : List Char) :
    joinNl (if l = [] then [] else [l]) = l := by
  by_cases h : l = []
  · rw [if_pos h, h]; rfl
  · rw [if_neg h]; rfl

theorem joinNl_if_inv (l : List Char) :
    joinNl (if l = [] then ([] : List (List Char)) else [l]) = [] →
    (if l = [] then ([] : List (List Char)) else [l]) = [] := by
  intro h
  by_cases h0 : l = []
  · rw [if_pos h0]
  · rw [joinNl_singleton_if] at h
    exact absurd h h0

/-- The loop on strings computes exactly the line groups, joined. -/
theorem segLoop_eq_groups (soft : Nat) : ∀ (ls : List (List Char)) (cur : List (List Char)),
    (joinNl cur = [] → cur = []) →
    segLoop soft ls (joinNl cur) = (segGroups soft ls cur).map joinNl := by
  intro ls
  induction ls with
  | nil =>
    intro cur hinv
    show (if joinNl cur = [] then [] else [joinNl cur]) =
      ((if cur = [] then [] else [cur]) : List (List (List Char))).map joinNl
    by_cases h : cur = []
    · rw [h]; rfl
    · have hj : joinNl cur ≠ [] := fun hh => h (hinv hh)
      rw [if_neg hj, if_neg h]; rfl
  | cons l ls ih =>
    intro cur hinv
    have hline : segLoop soft ls l =
        (segGroups soft ls (if l = [] then [] else [l])).map joinNl := by
      have := ih (if l = [] then [] else [l]) (joinNl_if_inv l)
      rwa [joinNl_singleton_if] at this
    show (if soft < (strBytes (joinNl cur)).length + (strBytes l).length + 1 then
        (if joinNl cur = [] then [] else [joinNl cur]) ++ segLoop soft ls l
      else segLoop soft ls (if joinNl cur = [] then l else joinNl cur ++ '\n' :: l)) =
      ((if soft < (strBytes (joinNl cur)).length + (strBytes l).length + 1 then
        (if cur = [] then [] else [cur]) ++
          segGroups soft ls (if l = [] then [] else [l])
      else segGroups soft ls
        (if cur = [] then (if l = [] then [] else [l]) else cur ++ [l]))).map joinNl
    by_cases hc : soft < (strBytes (joinNl cur)).length + (strBytes l).length + 1
    · rw [if_pos hc, if_pos hc, List.map_append, ← hline]
      have h1 : (if joinNl cur = [] then ([] : List (List Char)) else [joinNl cur]) =
          ((if cur = [] then [] else [cur]) : List (List (List Char))).map joinNl := by
        by_cases h : cur = []
        · rw [h]; rfl
        · have hj : joinNl cur ≠ [] := fun hh => h (hinv hh)
          rw [if_neg hj, if_neg h]; rfl
      rw [h1]
    · rw [if_neg hc, if_neg hc]
      by_cases h : cur = []
      · have hj : joinNl cur = [] := by rw [h]; rfl
        rw [if_pos hj, if_pos h]
        exact hline
      · have hj : joinNl cur ≠ [] := fun hh => h (hinv hh)
        rw [if_neg hj, if_neg h]
        rw [← joinNl_concat l cur h]
        refine ih (cur ++ [l]) ?_
        intro hh
        rw [joinNl_concat l cur h] at hh
        exact absurd hh (by simp)

theorem flatten_push (cur : List (List Char)) :
    (if cur = [] then ([] : List (List (List Char))) else [cur]).flatten = cur := by
  by_cases h : cur = []
  · rw [if_pos h, h]; rfl
  · rw [if_neg h]; simp

open List in
/-- Putting every group back in order loses at most input lines: the flat
group content is a sublist of the input lines. -/
theorem segGroups_flatten_sublist (soft : Nat) :
    ∀ (ls : List (List Char)) (cur : List (List Char)),
      (segGroups soft ls cur).flatten <+ cur ++ ls := by
  intro ls
  induction ls with
  | nil =>
    intro cur
    show (if cur = [] then ([] : List (List (List Char))) else [cur]).flatten <+ cur ++ []
    rw [flatten_push, List.append_nil]
  | cons l ls ih =>
    intro cur
    have h2 : (segGroups soft ls (if l = [] then [] else [l])).flatten <+ l :: ls := by
      refine (ih (if l = [] then [] else [l])).trans ?_
      by_cases h0 : l = []
      · rw [if_pos h0, List.nil_append, h0]
        exact (Sublist.refl _).cons _
      · rw [if_neg h0]
        exact Sublist.refl _
    show (if soft < (strBytes (joinNl cur)).length + (strBytes l).length + 1 then
        (if cur = [] then [] else [cur]) ++
          segGroups soft ls (if l = [] then [] else [l])
      else segGroups soft ls
        (if cur = [] then (if l = [] then [] else [l]) else cur ++ [l])).flatten
      <+ cur ++ l :: ls
    by_cases hc : soft < (strBytes (joinNl cur)).length + (strBytes l).length + 1
    · rw [if_pos hc, List.flatten_append, flatten_push]
      exact Sublist.append_left h2 cur
    · rw [if_neg hc]
      by_cases h0 : cur = []
      · rw [if_pos h0, h0, List.nil_append]
        exact h2
      · rw [if_neg h0]
        have := ih (cur ++ [l])
        rw [List.append_assoc] at this
        exact this

open List in
/-- Conversely nothing but empty lines is ever dropped: every nonempty input
line survives into the groups, in order. -/
theorem segGroups_keeps (soft : Nat) :
    ∀ (ls : List (List Char)) (cur : List (List Char)),
      (cur ++ ls).filter (fun w => !w.isEmpty) <+ (segGroups soft ls cur).flatten := by
  intro ls
  induction ls with
  | nil =>
    intro cur
    show (cur ++ []).filter _ <+
      (if cur = [] then ([] : List (List (List Char))) else [cur]).flatten
    rw [List.append_nil, flatten_push]
    exact List.filter_sublist _
  | cons l ls ih =>
    intro cur
    have hfl : (l :: ls).filter (fun w => !w.isEmpty) =
        ((if l = [] then [] else [l]) ++ ls).filter (fun w => !w.isEmpty) := by
      by_cases h0 : l = []
      · rw [if_pos h0, List.nil_append, h0, List.filter_cons, if_neg (by decide)]
      · rw [if_neg h0]
        rfl
    show (cur ++ l :: ls).filter _ <+
      (if soft < (strBytes (joinNl cur)).length + (strBytes l).length + 1 then
        (if cur = [] then [] else [cur]) ++
          segGroups soft ls (if l = [] then [] else [l])
      else segGroups soft ls
        (if cur = [] then (if l = [] then [] else [l]) else cur ++ [l])).flatten
    by_cases hc : soft < (strBytes (joinNl cur)).length + (strBytes l).length + 1
    · rw [if_pos hc, List.flatten_append, flatten_push, List.filter_append]
      have h3 : (l :: ls).filter (fun w => !w.isEmpty) <+
          (segGroups soft ls (if l = [] then [] else [l])).flatten := by
        rw [hfl]; exact ih _
      exact Sublist.append (List.filter_sublist _) h3
    · rw [if_neg hc]
      by_cases h0 : cur = []
      · rw [if_pos h0, h0, List.nil_append, hfl]
        exact ih _
      · rw [if_neg h0]
        have := ih (cur ++ [l])
        rw [List.append_assoc] at this
        exact this

theorem segGroups_ne (soft : Nat) : ∀ (ls : List (List Char)) (cur : List (List Char)),
    ∀ g ∈ segGroups soft ls cur, g ≠ [] := by
  intro ls
  induction ls with
  | nil =>
    intro cur g hg
    replace hg : g ∈ (if cur = [] then ([] : List (List (List Char))) else [cur]) := hg
    by_cases h : cur = []
    · rw [if_pos h] at hg; cases hg
    · rw [if_neg h] at hg
      rw [List.mem_singleton.mp hg]; exact h
  | cons l ls ih =>
    intro cur g hg
    replace hg : g ∈ (if soft < (strBytes (joinNl cur)).length + (strBytes l).length + 1 then
        (if cur = [] then [] else [cur]) ++
          segGroups soft ls (if l = [] then [] else [l])
      else segGroups soft ls
        (if cur = [] then (if l = [] then [] else [l]) else cur ++ [l])) := hg
    by_cases hc : soft < (strBytes (joinNl cur)).length + (strBytes l).length + 1
    · rw [if_pos hc] at hg
      rcases List.mem_append.mp hg with h1 | h2
      · by_cases h : cur = []
        · rw [if_pos h] at h1; cases h1
        · rw [if_neg h] at h1
          rw [List.mem_singleton.mp h1]; exact h
      · exact ih _ _ h2
    · rw [if_neg hc] at hg
      exact ih _ _ hg

open List in
/-- C4 (amended): a report of at most 4096 bytes goes out as one message;
for a longer report every chunk is at most the 4000-byte soft limit unless
it is a single over-long input line, and the chunks partition a subsequence
of the report's lines that keeps every nonempty line — but empty lines that
arrive while the accumulator is empty (at the report start or right after a
chunk boundary) are dropped, so exact reassembly of the line sequence can
fail. -/
theorem C4_segmentation (s : List Char) :
    ((strBytes s).length ≤ 4096 → sendPlan s = [s]) ∧
    (4096 < (strBytes s).length →
      (∀ ch ∈ sendPlan s, (strBytes ch).length ≤ 4000 ∨ ch ∈ rustLines s) ∧
      ∃ lss : List (List (List Char)),
        sendPlan s = lss.map joinNl ∧
        (∀ g ∈ lss, g ≠ []) ∧
        lss.flatten <+ rustLines s ∧
        (rustLines s).filter (fun w => !w.isEmpty) <+ lss.flatten) := by
  constructor
  · intro h
    unfold sendPlan
    rw [if_neg (by omega)]
  · intro h
    have hplan : sendPlan s = segLoop 4000 (rustLines s) [] := by
      unfold sendPlan
      rw [if_pos h]
      rfl
    constructor
    · intro ch hch
      rw [hplan] at hch
      rcases segLoop_mem 4000 (rustLines s) [] ch hch with h1 | h1 | h1
      · exact Or.inl h1
      · subst h1
        exact Or.inl (by decide)
      · exact Or.inr h1
    · refine ⟨segGroups 4000 (rustLines s) [], ?_, segGroups_ne 4000 _ _, ?_, ?_⟩
      · rw [hplan]
        exact segLoop_eq_groups 4000 (rustLines s) [] (fun _ => rfl)
      · have := segGroups_flatten_sublist 4000 (rustLines s) []
        rwa [List.nil_append] at this
      · have := segGroups_keeps 4000 (rustLines s) []
        rwa [List.nil_append] at this

/-- Witness for C4: a 2-byte report is sent as a single message. -/
theorem C4_witness : sendPlan "hi".data = ["hi".data] :=
  (C4_segmentation "hi".data).1 (by decide)

/-- An over-length report that begins with an empty line: 1 newline plus
4096 copies of `a`, 4097 bytes in total. -/
def longReport : List Char := '\n' :: List.replicate 4096 'a'

theorem strBytes_replicate_a (n : Nat) :
    strBytes (List.replicate n 'a') = List.replicate n 97 := by
  induction n with
  | zero => rfl
  | succ k ih =>
    rw [List.replicate_succ, List.replicate_succ]
    show utf8Bytes 'a'.toNat ++ strBytes (List.replicate k 'a') = 97 :: List.replicate k 97
    rw [show utf8Bytes 'a'.toNat = [97] from by decide, ih]
    rfl

theorem getLast?_replicate_a (n : Nat) :
    (List.replicate (n + 1) 'a').getLast? = some 'a' := by
  induction n with
  | zero => rfl
  | succ k ih =>
    show (('a' : Char) :: List.replicate (k + 1) 'a').getLast? = some 'a'
    rw [show List.replicate (k + 1) 'a' = 'a' :: List.replicate k 'a' from
      List.replicate_succ .., List.getLast?_cons_cons]
    exact ih

theorem splitNl_replicate_a (n : Nat) :
    splitNl (List.replicate n 'a') = [List.replicate n 'a'] := by
  induction n with
  | zero => rfl
  | succ k ih =>
    show (if ('a' : Char) = '\n' then [] :: splitNl (List.replicate k 'a')
      else match splitNl (List.replicate k 'a') with
        | s :: ss => ('a' :: s) :: ss
        | [] => [['a']]) = [List.replicate (k + 1) 'a']
    rw [if_neg (by decide), ih]
    rfl

theorem replicate_a_ne_nil : List.replicate 4096 'a' ≠ [] := by
  intro hh
  have := congrArg List.length hh
  rw [List.length_replicate] at this
  simp at this

theorem replicate_4096_eq : List.replicate 4096 'a' = 'a' :: List.replicate 4095 'a' := by
  rw [show (4096 : Nat) = 4095 + 1 from rfl, List.replicate_succ]

theorem getLast?_replicate_4096 : (List.replicate 4096 'a').getLast? = some 'a' := by
  rw [show (4096 : Nat) = 4095 + 1 from rfl]
  exact getLast?_replicate_a 4095

theorem rustLines_longReport :
    rustLines longReport = [[], List.replicate 4096 'a'] := by
  have hlast : longReport.getLast? = some 'a' := by
    show (('\n' : Char) :: List.replicate 4096 'a').getLast? = some 'a'
    rw [replicate_4096_eq, List.getLast?_cons_cons, ← List.replicate_succ]
    exact getLast?_replicate_a 4095
  unfold rustLines
  rw [if_neg (show longReport ≠ [] from fun hh => List.noConfusion hh),
    if_neg (by rw [hlast]; decide)]
  have hsp : splitNl longReport = [] :: [List.replicate 4096 'a'] := by
    show (if ('\n' : Char) = '\n' then [] :: splitNl (List.replicate 4096 'a')
      else match splitNl (List.replicate 4096 'a') with
        | s :: ss => ('\n' :: s) :: ss
        | [] => [['\n']]) = [] :: [List.replicate 4096 'a']
    rw [if_pos rfl, splitNl_replicate_a]
  rw [hsp]
  show [stripCR [], stripCR (List.replicate 4096 'a')] = [[], List.replicate 4096 'a']
  rw [show stripCR [] = [] from rfl]
  rw [show stripCR (List.replicate 4096 'a') = List.replicate 4096 'a' from by
    unfold stripCR
    rw [if_neg (by rw [getLast?_replicate_4096]; decide)]]

/-- The chunking loop on an empty line followed by a single over-soft-limit
line: the empty line is absorbed by the empty accumulator and dropped, and
the long line comes back as the only chunk. -/
theorem seg_empty_then_long (w : List Char) (hw : 4000 < (strBytes w).length)
    (hwne : w ≠ []) : segLoop 4000 [[], w] [] = [w] := by
  have h0 : (strBytes ([] : List Char)).length = 0 := rfl
  show (if 4000 < (strBytes ([] : List Char)).length +
      (strBytes ([] : List Char)).length + 1 then
      (if ([] : List Char) = [] then [] else [[]]) ++ segLoop 4000 [w] []
    else segLoop 4000 [w]
      (if ([] : List Char) = [] then [] else [] ++ '\n' :: [])) = [w]
  rw [if_neg (by omega), if_pos rfl]
  show (if 4000 < (strBytes ([] : List Char)).length + (strBytes w).length + 1 then
      (if ([] : List Char) = [] then [] else [[]]) ++ segLoop 4000 [] w
    else segLoop 4000 []
      (if ([] : List Char) = [] then w else [] ++ '\n' :: w)) = [w]
  rw [if_pos (by omega), if_pos rfl, List.nil_append]
  show (if w = [] then ([] : List (List Char)) else [w]) = [w]
  rw [if_neg hwne]

/-- C4 counterexample: the claim as stated demands that concatenating the
chunks with newlines reinserted reproduce the report's line sequence; for
`longReport` (4097 bytes) the leading empty line is dropped — the 4096-byte
second line closes the empty accumulator without flushing anything — so the
chunks rejoined differ from the original lines rejoined. -/
theorem C4_counterexample :
    4096 < (strBytes longReport).length ∧
    joinNl (sendPlan longReport) ≠ joinNl (rustLines longReport) := by
  have hlen : (strBytes (List.replicate 4096 'a')).length = 4096 := by
    rw [strBytes_replicate_a, List.length_replicate]
  have hsplit : strBytes longReport =
      utf8Bytes '\n'.toNat ++ strBytes (List.replicate 4096 'a') := rfl
  have hlenL : (strBytes longReport).length = 4097 := by
    rw [hsplit, List.length_append, hlen,
      show utf8Bytes '\n'.toNat = [10] from by decide]
    rfl
  refine ⟨by omega, ?_⟩
  have hplan : sendPlan longReport = [List.replicate 4096 'a'] := by
    unfold sendPlan
    rw [if_pos (by omega)]
    unfold segment
    rw [rustLines_longReport]
    exact seg_empty_then_long _ (by omega) replicate_a_ne_nil
  rw [hplan, rustLines_longReport]
  show List.replicate 4096 'a' ≠ '\n' :: List.replicate 4096 'a'
  intro hh
  have := congrArg List.length hh
  rw [List.length_replicate, List.length_cons, List.length_replicate] at this
  omega

/-! ## Result Renderer (`format_query_response` and `escape_html` in
src/utils.rs; response data model in src/api_client.rs) -/

/-- A `serde_json::Value`. A JSON number is abstracted by the string that
`format!("{}", v.as_f64().unwrap_or(0.0))` renders for it — the claims under
verification never depend on the float formatting itself, only on which JSON
shapes reach which branch. -/
inductive JsonM where
  | jstr (s : List Char)
  | jnum (disp : List Char)
  | jbool (b : Bool)
  | jnull
  | jarr (xs : List JsonM)
  | jobj (fields : List (List Char × JsonM))

/-- `Insight` of src/api_client.rs. -/
structure InsightM where
  title : List Char
  description : List Char
  significance : List Char

/-- `AnalysisResult` of src/api_client.rs (the `chart_type` hint is never
read by the renderer and is omitted). -/
structure AnalysisResultM where
  headline : List Char
  insights : List InsightM
  explanation : List Char
  suggested_questions : List (List Char)

/-- `QueryResponse` of src/api_client.rs, restricted to the fields that
`format_query_response` reads (`question`, `sql` and `chart_data` are not
consulted by the renderer). -/
structure QueryResponseM where
  text_response : Option (List Char)
  data : List JsonM
  table : Option (List Char)
  execution_time_ms : Nat
  row_count : Nat
  analysis : Option AnalysisResultM
  cached : Bool

/-- Fuel-indexed body of `replaceAll`; the fuel is the input length, enough
because every step consumes at least one character. -/
def replaceAllAux (pat rep : List Char) : Nat → List Char → List Char
  | _, [] => []
  | 0, s => s
  | fuel + 1, c :: rest =>
    if pat ≠ [] ∧ listStarts (c :: rest) pat then
      rep ++ replaceAllAux pat rep fuel ((c :: rest).drop pat.length)
    else c :: replaceAllAux pat rep fuel rest

/-- Rust `str::replace`: replace every non-overlapping occurrence of `pat`,
scanning left to right (never called with an empty pattern here). -/
def replaceAll (pat rep : List Char) (s : List Char) : List Char :=
  replaceAllAux pat rep s.length s

/-- `escape_html` (src/utils.rs lines 402-406): `&`, `<`, `>` replaced in
that order. -/
def escape_html (text : List Char) : List Char :=
  replaceAll ">".data "&gt;".data
    (replaceAll "<".data "&lt;".data
      (replaceAll "&".data "&amp;".data text))

/-- `format!("{}", n)` for the integer counters of the response. -/
def natChars (n : Nat) : List Char := (Nat.repr n).data

/-- The severity glyph of an insight (src/utils.rs lines 188-192). -/
def insight_emoji (sig : List Char) : List Char :=
  if sig = "High".data then "🔴".data
  else if sig = "Medium".data then "🟡".data
  else "🟢".data

/-- One insight block (src/utils.rs line 193). -/
def insight_block (i : InsightM) : List Char :=
  insight_emoji i.significance ++ " <b>".data ++ escape_html i.title ++ "</b>\n".data
    ++ escape_html i.description ++ "\n\n".data

/-- The 1-based numbered list of suggested questions (src/utils.rs lines
202-204): `enumerate` indices plus one. -/
def numbered_questions : Nat → List (List Char) → List Char
  | _, [] => []
  | i, q :: qs => natChars (i + 1) ++ ". ".data ++ escape_html q ++ "\n".data
      ++ numbered_questions (i + 1) qs

/-- The analysis section (src/utils.rs lines 182-207). -/
def analysis_block (a : AnalysisResultM) : List Char :=
  "📊 <b>".data ++ escape_html a.headline ++ "</b>\n\n".data
  ++ (if a.insights.isEmpty = false then
        "💡 <b>Основные выводы:</b>\n".data ++ (a.insights.map insight_block).flatten
      else [])
  ++ "📝 <b>Объяснение:</b>\n".data ++ escape_html a.explanation ++ "\n\n".data
  ++ (if a.suggested_questions.isEmpty = false then
        "💭 <b>Рекомендуемые вопросы:</b>\n".data
        ++ "<i>Нажмите на кнопку ниже, чтобы выполнить запрос</i>\n\n".data
        ++ numbered_questions 0 a.suggested_questions ++ "\n".data
      else [])

/-- The table section (src/utils.rs lines 211-226): full preformatted table
for at most 10 rows, else the first 10 lines plus the `row_count - 5` notice
(the off-by-five is the source's own). -/
def table_block (tbl : List Char) (row_count : Nat) : List Char :=
  if tbl ≠ [] then
    "📋 <b>Результаты (".data ++ natChars row_count ++ ")</b>:\n\n".data
    ++ (if row_count ≤ 10 then tbl
        else joinNl ((rustLines tbl).take 10)
          ++ "\n... и еще ".data ++ natChars (row_count - 5) ++ " строк(и)\n".data)
    ++ "\n".data
  else []

/-- The data section (src/utils.rs lines 211-232): the table when present
(even an empty one suppresses the fallbacks), else a count notice for
multi-row data, else the no-data notice. -/
def data_block (r : QueryResponseM) : List Char :=
  match r.table with
  | some tbl => table_block tbl r.row_count
  | none =>
    if r.data.isEmpty = false ∧ 1 < r.row_count then
      "📊 <b>Найдено результатов:</b> ".data ++ natChars r.row_count ++ "\n\n".data
    else if r.data.isEmpty = true then "📭 Нет данных для отображения\n".data
    else []

/-- The trailing timing line (src/utils.rs lines 234-237). -/
def timing_tail (r : QueryResponseM) : List Char :=
  "\n⏱ <b>Время выполнения:</b> ".data ++ natChars r.execution_time_ms ++ "ms".data
  ++ (if r.cached then " (из кэша)".data else [])

/-- `format_query_response` (src/utils.rs lines 172-240): a narrative
`text_response` is escaped and returned at once; otherwise the analysis,
data and timing sections are concatenated in order. -/
def format_query_response (r : QueryResponseM) : List Char :=
  match r.text_response with
  | some t => escape_html t
  | none =>
    (match r.analysis with
      | some a => analysis_block a
      | none => []) ++ data_block r ++ timing_tail r

theorem format_none (r : QueryResponseM) (h : r.text_response = none) :
    format_query_response r =
      (match r.analysis with
        | some a => analysis_block a
        | none => []) ++ data_block r ++ timing_tail r := by
  unfold format_query_response
  rw [h]

/-- C5: when the narrative answer is present the entire render is exactly
the HTML escape of it — `&` to `&amp;`, `<` to `&lt;`, `>` to `&gt;`, in
that order — with no analysis, table or other section. -/
theorem C5_narrative_shortcircuit (r : QueryResponseM) (x : List Char)
    (h : r.text_response = some x) :
    format_query_response r =
      replaceAll ">".data "&gt;".data
        (replaceAll "<".data "&lt;".data
          (replaceAll "&".data "&amp;".data x)) := by
  unfold format_query_response
  rw [h]
  rfl

/-- A narrative response used as concrete input. -/
def narrativeResp : QueryResponseM :=
  { text_response := some "a<b&c".data, data := [], table := none,
    execution_time_ms := 7, row_count := 0, analysis := none, cached := false }

/-- Witness for C5 at a concrete narrative response. -/
theorem C5_witness : format_query_response narrativeResp = "a&lt;b&amp;c".data :=
  (C5_narrative_shortcircuit narrativeResp "a<b&c".data rfl).trans (by decide)

/-- Rust-style `ends_with` on the char-list model. -/
def endsWith (s pat : List Char) : Bool :=
  decide (pat.length ≤ s.length) && s.drop (s.length - pat.length) == pat

/-- C6 (amended): whenever there is no narrative answer, the render ends
with the timing line — execution time in milliseconds with the
`" (из кэша)"` suffix exactly when `cached` is set. (The narrative branch
returns early and carries no timing line, which is what breaks the claim as
stated.) -/
theorem C6_timing_line (r : QueryResponseM) (h : r.text_response = none) :
    ∃ p, format_query_response r = p ++ timing_tail r := by
  rw [format_none r h]
  exact ⟨(match r.analysis with
    | some a => analysis_block a
    | none => []) ++ data_block r, rfl⟩

/-- A non-narrative response used as concrete input. -/
def plainResp : QueryResponseM :=
  { text_response := none, data := [], table := none,
    execution_time_ms := 5, row_count := 0, analysis := none, cached := true }

/-- Witness for C6 at a concrete non-narrative response. -/
theorem C6_witness : ∃ p, format_query_response plainResp = p ++ timing_tail plainResp :=
  C6_timing_line plainResp rfl

/-- C6 counterexample: for a narrative response the render is just the
escaped answer; it does not end in `"ms"` and carries no cache suffix, so
the trailing-timing-line claim fails on this `QueryResult`. -/
theorem C6_counterexample :
    narrativeResp.text_response = some "a<b&c".data ∧
    format_query_response narrativeResp = "a&lt;b&amp;c".data ∧
    endsWith (format_query_response narrativeResp) "ms".data = false ∧
    endsWith (format_query_response narrativeResp) " (из кэша)".data = false := by
  refine ⟨rfl, by decide, by decide, by decide⟩

theorem data_block_some (r : QueryResponseM) (tbl : List Char)
    (h : r.table = some tbl) : data_block r = table_block tbl r.row_count := by
  unfold data_block
  rw [h]

/-- C7: with a nonempty preformatted table and no narrative answer, the
render contains the full table verbatim when `row_count ≤ 10`, and exactly
the first 10 of its lines immediately followed by the `row_count - 5`
remaining-rows notice when `row_count > 10`. -/
theorem C7_table_section (r : QueryResponseM) (tbl : List Char)
    (h0 : r.text_response = none) (h1 : r.table = some tbl) (h2 : tbl ≠ []) :
    (r.row_count ≤ 10 → ∃ p t, format_query_response r =
      p ++ ("📋 <b>Результаты (".data ++ natChars r.row_count ++ ")</b>:\n\n".data
        ++ tbl ++ "\n".data) ++ t) ∧
    (10 < r.row_count → ∃ p t, format_query_response r =
      p ++ ("📋 <b>Результаты (".data ++ natChars r.row_count ++ ")</b>:\n\n".data
        ++ (joinNl ((rustLines tbl).take 10)
          ++ "\n... и еще ".data ++ natChars (r.row_count - 5) ++ " строк(и)\n".data)
        ++ "\n".data) ++ t) := by
  constructor
  · intro hle
    refine ⟨(match r.analysis with
      | some a => analysis_block a
      | none => []), timing_tail r, ?_⟩
    rw [format_none r h0, data_block_some r tbl h1]
    unfold table_block
    rw [if_pos h2, if_pos hle]
  · intro hgt
    refine ⟨(match r.analysis with
      | some a => analysis_block a
      | none => []), timing_tail r, ?_⟩
    rw [format_none r h0, data_block_some r tbl h1]
    unfold table_block
    rw [if_pos h2, if_neg (by omega)]

/-- A 12-row response with a preformatted table, used as concrete input. -/
def tableResp : QueryResponseM :=
  { text_response := none, data := [], table := some "r1\nr2".data,
    execution_time_ms := 3, row_count := 12, analysis := none, cached := false }

/-- Witness for C7 at a concrete 12-row response. -/
theorem C7_witness : ∃ p t, format_query_response tableResp =
    p ++ ("📋 <b>Результаты (".data ++ natChars tableResp.row_count ++ ")</b>:\n\n".data
      ++ (joinNl ((rustLines "r1\nr2".data).take 10)
        ++ "\n... и еще ".data ++ natChars (tableResp.row_count - 5) ++ " строк(и)\n".data)
      ++ "\n".data) ++ t :=
  (C7_table_section tableResp "r1\nr2".data rfl rfl (by decide)).2 (by decide)

/-! ## Chart Artifact Builder (`generate_chart_image` in src/utils.rs) -/

/-- `ChartDataset` of src/api_client.rs. -/
structure ChartDatasetM where
  label : List Char
  data : List Float

/-- `ChartData` of src/api_client.rs. -/
structure ChartDataM where
  chart_type : List Char
  labels : List (List Char)
  datasets : List ChartDatasetM
  title : Option (List Char)

/-- Outcomes of the external drawing/IO capabilities that
`generate_chart_image` invokes through `?` (the plotters rasterizer and the
filesystem are collaborators outside this crate): whether `root.fill`,
`build_cartesian_2d`, `configure_mesh().draw()`, the `draw_series` calls and
the final `std::fs::read` succeed, and what bytes the read returns. -/
structure DrawEnv where
  fillOk : Bool
  buildOk : Bool
  meshOk : Bool
  seriesOk : Bool
  readOk : Bool
  fileBytes : List Nat

inductive ChartOutcome where
  | ok (bytes : List Nat)
  | err
  | panicked
deriving DecidableEq

/-- The exit structure of `generate_chart_image` (src/utils.rs lines
47-170) in source order: `root.fill(&WHITE)?` (line 61) can error first;
`chart_data.datasets[0]` (line 65) panics on an empty `datasets` before the
guard; `label_count == 0` (line 68) returns `Ok(Vec::new())`;
`build_cartesian_2d` (line 83), the mesh draw (line 112) and the series
draws (lines 115-161) can each error; `std::fs::read` (line 165) can error;
only after a successful read does `std::fs::remove_file` (line 167) run.
The second component records whether that removal was executed; every other
exit leaves the transient chart file to whatever the backend's
present-on-drop wrote, with no cleanup. -/
def generate_chart_image (cd : ChartDataM) (env : DrawEnv)
    (_width _height : Nat) : ChartOutcome × Bool :=
  if env.fillOk = false then (ChartOutcome.err, false)
  else if cd.datasets.isEmpty then (ChartOutcome.panicked, false)
  else if cd.labels.isEmpty then (ChartOutcome.ok [], false)
  else if env.buildOk = false then (ChartOutcome.err, false)
  else if env.meshOk = false then (ChartOutcome.err, false)
  else if env.seriesOk = false then (ChartOutcome.err, false)
  else if env.readOk = false then (ChartOutcome.err, false)
  else (ChartOutcome.ok env.fileBytes, true)

/-- An all-successful drawing environment. -/
def envOk : DrawEnv := ⟨true, true, true, true, true, []⟩

/-- C8 counterexample: with empty `labels` AND empty `datasets` the call
panics at `chart_data.datasets[0]` (index out of bounds) before the
empty-labels guard, instead of returning the empty result the claim
demands. -/
theorem C8_counterexample :
    (generate_chart_image ⟨"bar".data, [], [], none⟩ envOk 1000 700).1 =
      ChartOutcome.panicked ∧
    (generate_chart_image ⟨"bar".data, [], [], none⟩ envOk 1000 700).1 ≠
      ChartOutcome.ok [] := by
  refine ⟨by decide, by decide⟩

/-- C8 (amended): with empty `labels`, a NONEMPTY `datasets`, and a
successful background fill, `generate_chart_image` returns `Ok` with empty
bytes — the `datasets[0]` indexing on line 65 panics first when `datasets`
is empty, so the claim's "regardless of the datasets sequence" part fails. -/
theorem C8_empty_labels (cd : ChartDataM) (env : DrawEnv) (w h : Nat)
    (h1 : cd.labels = []) (h2 : cd.datasets ≠ []) (h3 : env.fillOk = true) :
    (generate_chart_image cd env w h).1 = ChartOutcome.ok [] := by
  have hds : cd.datasets.isEmpty = false := by
    cases hd : cd.datasets with
    | nil => exact absurd hd h2
    | cons a t => rfl
  unfold generate_chart_image
  rw [if_neg (by rw [h3]; decide), if_neg (by rw [hds]; decide),
    if_pos (by rw [h1]; rfl)]

/-- Witness for C8 at a concrete chart description. -/
theorem C8_witness :
    (generate_chart_image ⟨"bar".data, [], [⟨"s".data, []⟩], none⟩ envOk 1000 700).1 =
      ChartOutcome.ok [] :=
  C8_empty_labels ⟨"bar".data, [], [⟨"s".data, []⟩], none⟩ envOk 1000 700 rfl
    (by simp) rfl

/-- C9 counterexample: on the empty-labels early return — an `Ok` exit —
the temporary chart file is not removed (`remove_file` on line 167 is
unreachable from the `return` on line 69), contradicting release on every
exit path. -/
theorem C9_counterexample :
    (generate_chart_image ⟨"bar".data, [], [⟨"s".data, []⟩], none⟩ envOk 1000 700).1 =
      ChartOutcome.ok [] ∧
    (generate_chart_image ⟨"bar".data, [], [⟨"s".data, []⟩], none⟩ envOk 1000 700).2 =
      false := by
  refine ⟨by decide, by decide⟩

/-- C9 (amended): the transient chart file is released on exactly one exit
path — the fully successful one, after the artifact has been read back.  The
empty-labels early return, the panic, and every drawing/read error return
skip the deletion. -/
theorem C9_release_only_on_success (cd : ChartDataM) (env : DrawEnv) (w h : Nat) :
    (generate_chart_image cd env w h).2 =
      (env.fillOk && !cd.datasets.isEmpty && !cd.labels.isEmpty
        && env.buildOk && env.meshOk && env.seriesOk && env.readOk) := by
  unfold generate_chart_image
  obtain ⟨f, b, m, s, rd, fb⟩ := env
  cases f <;> cases b <;> cases m <;> cases s <;> cases rd <;>
    cases hds : cd.datasets.isEmpty <;> cases hls : cd.labels.isEmpty <;> simp

/-! ## CSV export (`format_as_csv` in src/utils.rs) -/

def jsonAsObj : JsonM → Option (List (List Char × JsonM))
  | JsonM.jobj fields => some fields
  | _ => none

/-- `serde_json::Value::is_number`. -/
def jsonIsNum : JsonM → Bool
  | JsonM.jnum _ => true
  | _ => false

/-- `serde_json::Value::as_str`. -/
def jsonAsStr : JsonM → Option (List Char)
  | JsonM.jstr s => some s
  | _ => none

/-- The display of a JSON number, standing for
`format!("{}", v.as_f64().unwrap_or(0.0))`. -/
def numDisp : JsonM → List Char
  | JsonM.jnum d => d
  | _ => []

/-- `serde_json::Map::get`: the maps produced by JSON parsing have unique
keys, so first-match association lookup models them. -/
def lookupKV : List (List Char × JsonM) → List Char → Option JsonM
  | [], _ => none
  | (k, v) :: rest, key => if k = key then some v else lookupKV rest key

/-- `format!("\"{}\"", s.replace("\"", "\"\""))`. -/
def quoteCsv (s : List Char) : List Char :=
  '"' :: replaceAll "\"".data "\"\"".data s ++ ['"']

/-- One CSV cell (src/utils.rs lines 23-34): numbers through their f64
display, strings quoted with doubled quotes, everything else — missing key,
boolean, null, array, nested object — the empty string via `unwrap_or_else`. -/
def csvCell (obj : List (List Char × JsonM)) (key : List Char) : List Char :=
  ((lookupKV obj key).bind (fun v =>
    if jsonIsNum v then some (numDisp v) else (jsonAsStr v).map quoteCsv)).getD []

/-- One CSV row (src/utils.rs lines 20-39): only rows that are JSON objects
produce output. -/
def csvRow (keys : List (List Char)) (row : JsonM) : List Char :=
  match jsonAsObj row with
  | some obj => joinSep ",".data (keys.map (csvCell obj)) ++ "\n".data
  | none => []

/-- `format_as_csv` (src/utils.rs lines 5-43): header from the first
record's keys, then one row per object record. -/
def format_as_csv (data : List JsonM) : List Char :=
  match data with
  | [] => []
  | d0 :: rest =>
    match jsonAsObj d0 with
    | some firstObj =>
      joinSep ",".data (firstObj.map (fun kv => kv.1)) ++ "\n".data
        ++ ((d0 :: rest).map (csvRow (firstObj.map (fun kv => kv.1)))).flatten
    | none => []

/-- C10: in `format_as_csv`, a field that is neither a JSON string nor a
JSON number renders as the empty cell, byte-identical to a missing field's
cell; a non-object element contributes no row at all; a non-object first
element makes the whole CSV empty; and an object first element yields the
header plus the concatenation of the per-record rows. -/
theorem C10_csv_cells :
    (∀ obj key, lookupKV obj key = none → csvCell obj key = []) ∧
    (∀ obj key v, lookupKV obj key = some v → jsonIsNum v = false →
      jsonAsStr v = none → csvCell obj key = []) ∧
    (∀ keys row, jsonAsObj row = none → csvRow keys row = []) ∧
    (∀ d0 rest, jsonAsObj d0 = none → format_as_csv (d0 :: rest) = []) ∧
    (∀ d0 rest firstObj, jsonAsObj d0 = some firstObj →
      format_as_csv (d0 :: rest) =
        joinSep ",".data (firstObj.map (fun kv => kv.1)) ++ "\n".data
          ++ ((d0 :: rest).map (csvRow (firstObj.map (fun kv => kv.1)))).flatten) := by
  refine ⟨?_, ?_, ?_, ?_, ?_⟩
  · intro obj key h
    unfold csvCell
    rw [h]
    rfl
  · intro obj key v h hn hs
    unfold csvCell
    rw [h]
    show ((if jsonIsNum v then some (numDisp v)
      else (jsonAsStr v).map quoteCsv) : Option (List Char)).getD [] = []
    rw [if_neg (by rw [hn]; decide), hs]
    rfl
  · intro keys row h
    unfold csvRow
    rw [h]
  · intro d0 rest h
    show (match jsonAsObj d0 with
      | some firstObj =>
        joinSep ",".data (firstObj.map (fun kv => kv.1)) ++ "\n".data
          ++ ((d0 :: rest).map (csvRow (firstObj.map (fun kv => kv.1)))).flatten
      | none => []) = []
    rw [h]
  · intro d0 rest fo h
    show (match jsonAsObj d0 with
      | some firstObj =>
        joinSep ",".data (firstObj.map (fun kv : List Char × JsonM => kv.1)) ++ "\n".data
          ++ ((d0 :: rest).map
            (csvRow (firstObj.map (fun kv : List Char × JsonM => kv.1)))).flatten
      | none => []) = _
    rw [h]

/-- Witness for C10: a boolean field gives the empty cell, a string record
gives no row, and a non-object first element empties the CSV. -/
theorem C10_witness :
    csvCell [("a".data, JsonM.jbool true)] "a".data = [] ∧
    csvRow ["a".data] (JsonM.jstr "x".data) = [] ∧
    format_as_csv [JsonM.jstr "x".data] = [] :=
  ⟨C10_csv_cells.2.1 _ _ _ rfl rfl rfl,
   C10_csv_cells.2.2.1 _ _ rfl,
   C10_csv_cells.2.2.2.1 _ _ rfl⟩

end TgBot
